import Mathlib

set_option maxRecDepth 8000

/-!
Shallow embedding of the mentiby-admin attendance processing code.

Three Python variants are modelled, each in its own namespace:
* `Backend` — src/backend/attendance_processor.py (fractional minutes,
  identity aggregation, attendance_logs table, stu reconciliation);
* `Api` — src/api/attendance_processor.py (ceiling-seconds minutes,
  per-row participants, cohort log tables);
* `Legacy` — src/attendance_processor.py (ceiling-seconds minutes,
  60% threshold, per-date columns, UNKNOWN_n placeholder identities).

Python string and regex primitives used by the code are modelled
character-by-character below.
-/

/-! Python string primitives -/

def pyIsSpace (c : Char) : Bool :=
  c = ' ' || c = '\t' || c = '\n' || c = '\r' || c = '\x0b' || c = '\x0c'

def isWordChar (c : Char) : Bool := c.isAlphanum || c = '_'

def pyStripList (l : List Char) : List Char :=
  ((l.dropWhile pyIsSpace).reverse.dropWhile pyIsSpace).reverse

/-- Python str.strip(). -/
def pyStrip (s : String) : String := String.mk (pyStripList s.data)

/-- Numeric value of a digit run, as matched by a regex group. -/
def digitsVal (l : List Char) : Nat :=
  l.foldl (fun a c => a * 10 + (c.toNat - ('0').toNat)) 0

/-- First lookup in an association list (models a keyed read). -/
def alook {α : Type} (k : String) : List (String × α) → Option α
  | [] => none
  | p :: r => if p.1 = k then some p.2 else alook k r

/-- Python substring containment (the `in` operator on strings). -/
def strContainsL (hay pat : List Char) : Bool :=
  match hay with
  | [] => pat.isEmpty
  | _ :: rest => pat.isPrefixOf hay || strContainsL rest pat

/-! Regex word boundaries and the enrollment-id patterns -/

def boundaryBefore (prev : Option Char) : Bool :=
  match prev with
  | none => true
  | some c => !isWordChar c

def boundaryAfterL : List Char → Bool
  | [] => true
  | c :: _ => !isWordChar c

/-- Match of the canonical pattern two digits + MBY + four digits with a
trailing word boundary, at the head of the list. -/
def canonAt (l : List Char) : Option (List Char) :=
  match l with
  | d1 :: d2 :: c1 :: c2 :: c3 :: e1 :: e2 :: e3 :: e4 :: rest =>
    if d1.isDigit && d2.isDigit && c1 = 'M' && c2 = 'B' && c3 = 'Y'
        && e1.isDigit && e2.isDigit && e3.isDigit && e4.isDigit
        && boundaryAfterL rest
    then some [d1, d2, c1, c2, c3, e1, e2, e3, e4]
    else none
  | _ => none

def canonSearchAux (prev : Option Char) : List Char → Option (List Char)
  | [] => none
  | c :: rest =>
    match (if boundaryBefore prev then canonAt (c :: rest) else none) with
    | some m => some m
    | none => canonSearchAux (some c) rest

/-- re.search of the canonical enrollment-id pattern (leftmost match). -/
def canonSearch (l : List Char) : Option (List Char) := canonSearchAux none l

/-- Greedy match of one to three digits followed by a word boundary. -/
def specialSuffix : List Char → Option (List Char)
  | e1 :: e2 :: e3 :: rest =>
    if e1.isDigit && e2.isDigit && e3.isDigit && boundaryAfterL rest then
      some [e1, e2, e3]
    else if e1.isDigit && e2.isDigit && boundaryAfterL (e3 :: rest) then
      some [e1, e2]
    else if e1.isDigit && boundaryAfterL (e2 :: e3 :: rest) then
      some [e1]
    else none
  | [e1, e2] =>
    if e1.isDigit && e2.isDigit then some [e1, e2]
    else if e1.isDigit && boundaryAfterL [e2] then some [e1]
    else none
  | [e1] => if e1.isDigit then some [e1] else none
  | [] => none

/-- Match of the loose legacy pattern two digits + MBY + one-to-three
digits, at the head of the list. -/
def specialAt (l : List Char) : Option (List Char × List Char) :=
  match l with
  | d1 :: d2 :: c1 :: c2 :: c3 :: rest =>
    if d1.isDigit && d2.isDigit && c1 = 'M' && c2 = 'B' && c3 = 'Y' then
      match specialSuffix rest with
      | some suf => some ([d1, d2, c1, c2, c3], suf)
      | none => none
    else none
  | _ => none

def specialSearchAux (prev : Option Char) :
    List Char → Option (List Char × List Char)
  | [] => none
  | c :: rest =>
    match (if boundaryBefore prev then specialAt (c :: rest) else none) with
    | some m => some m
    | none => specialSearchAux (some c) rest

/-- re.search of the loose legacy pattern (leftmost match). -/
def specialSearch (l : List Char) : Option (List Char × List Char) :=
  specialSearchAux none l

/-- Python str.zfill on a digit string. -/
def zfill (n : Nat) (l : List Char) : List Char :=
  List.replicate (n - l.length) '0' ++ l

/-- re.search of digits followed by a fixed unit letter, returning the
numeric value of the leftmost such group. -/
def searchNumBefore (ch : Char) : List Char → Option Nat
  | [] => none
  | c :: rest =>
    if c.isDigit then
      match (List.span Char.isDigit (c :: rest)).2 with
      | a :: _ =>
        if a = ch then some (digitsVal (List.span Char.isDigit (c :: rest)).1)
        else searchNumBefore ch rest
      | [] => searchNumBefore ch rest
    else searchNumBefore ch rest

/-- re.search of a bare digit run, returning the leftmost value. -/
def firstNum : List Char → Option Nat
  | [] => none
  | c :: rest =>
    if c.isDigit then some (digitsVal (List.span Char.isDigit (c :: rest)).1)
    else firstNum rest

/-! Python round (banker's rounding) on rationals -/

def roundHalfEven (q : ℚ) : ℤ :=
  let f := ⌊q⌋
  let r := q - (f : ℚ)
  if r < 1/2 then f
  else if 1/2 < r then f + 1
  else if f % 2 = 0 then f else f + 1

/-- Python round(x, 2). -/
def round2 (q : ℚ) : ℚ := (roundHalfEven (q * 100) : ℚ) / 100

/-! String rewriting used by the name cleaners -/

/-- re.sub of a word-bounded literal pattern with the empty string. -/
def removeWBAux (pat : List Char) : Nat → Option Char → List Char → List Char
  | 0, _, l => l
  | _ + 1, _, [] => []
  | fuel + 1, prev, c :: rest =>
    if !pat.isEmpty && boundaryBefore prev && pat.isPrefixOf (c :: rest)
        && boundaryAfterL (List.drop pat.length (c :: rest)) then
      removeWBAux pat fuel pat.getLast? (List.drop pat.length (c :: rest))
    else
      c :: removeWBAux pat fuel (some c) rest

def removeWB (pat l : List Char) : List Char :=
  removeWBAux pat (l.length + 1) none l

/-- re.sub of a plain literal pattern with the empty string. -/
def removeLitAux (pat : List Char) : Nat → List Char → List Char
  | 0, l => l
  | _ + 1, [] => []
  | fuel + 1, c :: rest =>
    if !pat.isEmpty && pat.isPrefixOf (c :: rest) then
      removeLitAux pat fuel (List.drop pat.length (c :: rest))
    else
      c :: removeLitAux pat fuel rest

def removeLit (pat l : List Char) : List Char :=
  removeLitAux pat (l.length + 1) l

/-- Index of the first closing bracket reachable without a newline,
as matched by a non-greedy dot-star. -/
def findCloseBracket : List Char → Option Nat
  | [] => none
  | c :: rest =>
    if c = ']' then some 0
    else if c = '\n' then none
    else (findCloseBracket rest).map (· + 1)

/-- re.sub removing bracketed segments. -/
def removeBracketsAux : Nat → List Char → List Char
  | 0, l => l
  | _ + 1, [] => []
  | fuel + 1, c :: rest =>
    if c = '[' then
      match findCloseBracket rest with
      | some i => removeBracketsAux fuel (List.drop (i + 1) rest)
      | none => c :: removeBracketsAux fuel rest
    else c :: removeBracketsAux fuel rest

def removeBrackets (l : List Char) : List Char :=
  removeBracketsAux (l.length + 1) l

/-- re.sub removing a dash followed by a bracketed segment. -/
def removeDashBracketsAux : Nat → List Char → List Char
  | 0, l => l
  | _ + 1, [] => []
  | fuel + 1, c :: rest =>
    if c = '-' then
      match rest with
      | b :: rest2 =>
        if b = '[' then
          match findCloseBracket rest2 with
          | some i => removeDashBracketsAux fuel (List.drop (i + 1) rest2)
          | none => c :: removeDashBracketsAux fuel rest
        else c :: removeDashBracketsAux fuel rest
      | [] => c :: removeDashBracketsAux fuel rest
    else c :: removeDashBracketsAux fuel rest

def removeDashBrackets (l : List Char) : List Char :=
  removeDashBracketsAux (l.length + 1) l

/-- re.sub collapsing whitespace runs to a single space. -/
def collapseWsAux (prevSpace : Bool) : List Char → List Char
  | [] => []
  | c :: rest =>
    if pyIsSpace c then
      if prevSpace then collapseWsAux true rest
      else ' ' :: collapseWsAux true rest
    else c :: collapseWsAux false rest

def collapseWs (l : List Char) : List Char := collapseWsAux false l

/-- Python str.strip on the dash character. -/
def stripDashes (l : List Char) : List Char :=
  ((l.dropWhile (· = '-')).reverse.dropWhile (· = '-')).reverse

/-- Strip the line and split it on the separator, stripping each field
(the per-line row tokenization shared by the parsers). -/
def processLine (sep : String) (line : String) : List String :=
  ((pyStrip line).splitOn sep).map pyStrip

/-! Backend variant: src/backend/attendance_processor.py -/

namespace Backend

/-- is_valid_enrollment_id: anchored match of two digits + MBY + four
digits on the stripped string. -/
def is_valid_enrollment_id (s : String) : Bool :=
  if pyStrip s = "" then false
  else
    match (pyStrip s).data with
    | [d1, d2, c1, c2, c3, e1, e2, e3, e4] =>
      d1.isDigit && d2.isDigit && c1 = 'M' && c2 = 'B' && c3 = 'Y'
        && e1.isDigit && e2.isDigit && e3.isDigit && e4.isDigit
    | _ => false

/-- extract_enrollment_id: canonical pattern search over the name, with a
validity re-check on the extracted id. -/
def extract_enrollment_id (name : String) : Option String :=
  match canonSearch name.data with
  | some m =>
    if is_valid_enrollment_id (String.mk m) then some (String.mk m) else none
  | none => none

/-- clean_name: drop the enrollment id and the Unverified marker, collapse
whitespace, strip. -/
def clean_name (name : String) (enrollment_id : Option String) : String :=
  if name = "" then ""
  else
    let l0 := name.data
    let l1 := match enrollment_id with
      | some e => removeWB e.data l0
      | none => l0
    let l2 := removeLit ("(Unverified)").data l1
    let l3 := collapseWs l2
    String.mk (pyStripList l3)

/-- One optional regex group of digits followed by a unit letter. -/
def optNumUnit (ch : Char) (s : List Char) : Nat × List Char :=
  let sp := List.span Char.isDigit s
  match sp.2 with
  | a :: rest2 =>
    if !sp.1.isEmpty && a = ch then (digitsVal sp.1, rest2) else (0, s)
  | [] => (0, s)

/-- The three groups of the anchored duration regex, each optional and
separated by optional whitespace. -/
def durRegexGroups (s : List Char) : Nat × Nat × Nat :=
  let p1 := optNumUnit 'h' s
  let s1 := p1.2.dropWhile pyIsSpace
  let p2 := optNumUnit 'm' s1
  let s2 := p2.2.dropWhile pyIsSpace
  let p3 := optNumUnit 's' s2
  (p1.1, p2.1, p3.1)

/-- re.match of the duration pattern: every group is optional, so the
match always succeeds (possibly matching the empty prefix). -/
def durRegexMatch (s : List Char) : Option (Nat × Nat × Nat) :=
  some (durRegexGroups s)

/-- parse_duration: fractional minutes rounded to two decimals, with a
bare-integer fallback branch behind the regex match. -/
def parse_duration (s : String) : ℚ :=
  if s = "" then 0
  else
    match durRegexMatch (pyStrip s).data with
    | some g => round2 ((g.1 * 60 + g.2.1 : ℚ) + (g.2.2 : ℚ) / 60)
    | none =>
      match firstNum (pyStrip s).data with
      | some n => (n : ℚ)
      | none => 0

/-- Row acceptance and identity resolution for one participant row:
needs at least four fields, a name and a duration; the roll-number column
is authoritative when valid, else the id is extracted from the name. -/
def resolveRow (parts : List String) : Option (String × String × ℚ) :=
  if 4 ≤ parts.length ∧ parts.getD 0 ("") ≠ "" ∧ parts.getD 3 ("") ≠ "" then
    let name := parts.getD 0 ("")
    let roll := pyStrip (parts.getD 12 (""))
    let eid : Option String :=
      if roll ≠ "" ∧ is_valid_enrollment_id roll = true then some roll
      else extract_enrollment_id name
    match eid with
    | some e => some (e, clean_name name (some e), parse_duration (parts.getD 3 ("")))
    | none => none
  else none

/-- One step of the aggregation dict update in parse_csv_file. -/
def aggStep (m : List (String × String × ℚ)) (parts : List String) :
    List (String × String × ℚ) :=
  match resolveRow parts with
  | none => m
  | some e =>
    match alook e.1 m with
    | some _ => m.map (fun p => if p.1 = e.1 then (p.1, p.2.1, p.2.2 + e.2.2) else p)
    | none => m ++ [e]

/-- The participant_durations dict of parse_csv_file, in insertion order. -/
def aggregate (rows : List (List String)) : List (String × String × ℚ) :=
  rows.foldl aggStep []

structure Participant where
  enrollment_id : String
  name : String
  duration_minutes : ℚ
deriving DecidableEq

/-- The final participants list of parse_csv_file. -/
def participantsOfRows (rows : List (List String)) : List Participant :=
  (aggregate rows).map (fun e => ⟨e.1, e.2.1, e.2.2⟩)

/-- Row-section selection: stop at a blank line or the activities
section. -/
def dataLines (lines : List String) : List String :=
  lines.takeWhile (fun l =>
    !(pyStrip l == "") && !(strContainsL (pyStrip l).data ("In-Meeting Activities").data))

/-- parse_csv_file restricted to the participant table. -/
def parse_participants (lines : List String) : List Participant :=
  participantsOfRows ((dataLines lines).map (processLine ("\t")))

/-- The presence test of log_attendance: duration at least ten percent of
the meeting duration. -/
def classify (duration m : ℚ) : Bool := decide (m * (1/10) ≤ duration)

structure LogRecord where
  log_id : Nat
  enrollment_id : String
  cohort_type : String
  cohort_number : String
  subject : String
  class_date : String
  teacher_name : String
  attendance : Bool
deriving DecidableEq

structure LogResult where
  inserted : Nat
  present : Nat
  absent : Nat
deriving DecidableEq

def logStep (ct cn subj cd tn : String) (m : ℚ)
    (st : LogResult × Nat × List LogRecord) (p : Participant) :
    LogResult × Nat × List LogRecord :=
  let att := classify p.duration_minutes m
  let r : LogRecord := ⟨st.2.1, p.enrollment_id, ct, cn, subj, cd, tn, att⟩
  (⟨st.1.inserted + 1,
    st.1.present + (if att then 1 else 0),
    st.1.absent + (if att then 0 else 1)⟩,
   st.2.1 + 1, st.2.2 ++ [r])

/-- log_attendance: classify every participant and append one record per
participant with sequential log ids. -/
def log_attendance (participants : List Participant) (ct cn subj cd tn : String)
    (m : ℚ) (last_log_id : Nat) : LogResult × List LogRecord :=
  let st := participants.foldl (logStep ct cn subj cd tn m)
    (⟨0, 0, 0⟩, last_log_id + 1, [])
  (st.1, st.2.2)

structure StuRow where
  name : String
  cohort_type : String
  cohort_number : String
  total_classes : Nat
  present_classes : Nat
  overall_attendance : ℚ
deriving DecidableEq

/-- Python dict insertion: overwrite the value when the key exists. -/
def dictInsert (m : List (String × Bool)) (k : String) (v : Bool) :
    List (String × Bool) :=
  if (alook k m).isSome then m.map (fun p => if p.1 = k then (p.1, v) else p)
  else m ++ [(k, v)]

/-- The attendance_lookup dict built from the day's attendance records. -/
def buildLookup (records : List (String × Bool)) : List (String × Bool) :=
  records.foldl (fun m r => dictInsert m r.1 r.2) []

/-- New counters and percentage for an existing stu row. -/
def updateVals (old : StuRow) (wasPresent : Bool) : Nat × Nat × ℚ :=
  let nt := old.total_classes + 1
  let np := old.present_classes + (if wasPresent then 1 else 0)
  let pct : ℚ := if 0 < nt then (np : ℚ) / (nt : ℚ) * 100 else 0
  (nt, np, round2 pct)

/-- Fresh stu row for a student with no prior stats. -/
def insertRow (name ct cn : String) (wasPresent : Bool) : StuRow :=
  let p : Nat := if wasPresent then 1 else 0
  ⟨name, ct, cn, 1, p, round2 ((p : ℚ) / 1 * 100)⟩

/-- One roster student is planned either as an update (prior row exists)
or as an insert. -/
def planStep (stu : List (String × StuRow)) (lk : List (String × Bool))
    (ct cn : String)
    (acc : List (String × (Nat × Nat × ℚ)) × List (String × StuRow))
    (st : String × String) :
    List (String × (Nat × Nat × ℚ)) × List (String × StuRow) :=
  let wasP := (alook st.1 lk).getD false
  match alook st.1 stu with
  | some old => (acc.1 ++ [(st.1, updateVals old wasP)], acc.2)
  | none => (acc.1, acc.2 ++ [(st.1, insertRow st.2 ct cn wasP)])

/-- Apply one keyed update to the stu table (only the three stat columns
are written). -/
def applyUpd (s : List (String × StuRow)) (u : String × (Nat × Nat × ℚ)) :
    List (String × StuRow) :=
  s.map (fun p =>
    if p.1 = u.1 then
      (p.1, { p.2 with
              total_classes := u.2.1
              present_classes := u.2.2.1
              overall_attendance := u.2.2.2 })
    else p)

/-- update_stu_table: plan one update or insert per roster student from a
snapshot of the stu table, then apply inserts followed by updates.
Returns the new stu table, the updated count and the error list. -/
def update_stu_table (onboarding : List (String × String))
    (records : List (String × Bool)) (stu : List (String × StuRow))
    (ct cn : String) : List (String × StuRow) × Nat × List String :=
  if onboarding.isEmpty then
    (stu, 0, ["No students found in onboarding table"])
  else
    let lk := buildLookup records
    let plan := onboarding.foldl (planStep stu lk ct cn) ([], [])
    let final := plan.1.foldl applyUpd (stu ++ plan.2)
    (final, onboarding.length, [])

end Backend

/-! Api variant: src/api/attendance_processor.py -/

namespace Api

/-- is_valid_enrollment_id: anchored match of two digits + MBY + four
digits on the stripped string. -/
def is_valid_enrollment_id (s : String) : Bool :=
  if pyStrip s = "" then false
  else
    match (pyStrip s).data with
    | [d1, d2, c1, c2, c3, e1, e2, e3, e4] =>
      d1.isDigit && d2.isDigit && c1 = 'M' && c2 = 'B' && c3 = 'Y'
        && e1.isDigit && e2.isDigit && e3.isDigit && e4.isDigit
    | _ => false

/-- extract_enrollment_id: canonical pattern search over the name, with a
validity re-check on the extracted id. -/
def extract_enrollment_id (name : String) : Option String :=
  match canonSearch name.data with
  | some m =>
    if is_valid_enrollment_id (String.mk m) then some (String.mk m) else none
  | none => none

/-- Removal of a leading enrollment id plus dash or space separators. -/
def removeLeadingId (l : List Char) : List Char :=
  match l with
  | d1 :: d2 :: c1 :: c2 :: c3 :: e1 :: e2 :: e3 :: e4 :: rest =>
    if d1.isDigit && d2.isDigit && c1 = 'M' && c2 = 'B' && c3 = 'Y'
        && e1.isDigit && e2.isDigit && e3.isDigit && e4.isDigit
    then rest.dropWhile (fun c => c = '-' || pyIsSpace c)
    else l
  | _ => l

/-- clean_name: drop the id, the Unverified marker, bracketed segments and
a leading id prefix, collapse whitespace, strip spaces and dashes. -/
def clean_name (name : String) (enrollment_id : Option String) : String :=
  if name = "" then ""
  else
    let l0 := name.data
    let l1 := match enrollment_id with
      | some e => removeWB e.data l0
      | none => l0
    let l2 := removeLit ("(Unverified)").data l1
    let l3 := removeBrackets l2
    let l4 := removeDashBrackets l3
    let l5 := removeLeadingId l4
    let l6 := pyStripList (collapseWs l5)
    let l7 := stripDashes l6
    String.mk (pyStripList l7)

/-- parse_duration: independent searches for hour, minute and second
tokens; seconds round up to the next whole minute. -/
def parse_duration (s : String) : Nat :=
  if s = "" ∨ pyStrip s = "" then 0
  else
    let t := (pyStrip s).data
    (searchNumBefore 'h' t).getD 0 * 60 + (searchNumBefore 'm' t).getD 0 +
      (match searchNumBefore 's' t with
       | some v => (v + 59) / 60
       | none => 0)

structure Participant where
  enrollment_id : String
  name : String
  duration_minutes : Nat
deriving DecidableEq

/-- Row acceptance and identity resolution for one participant row:
needs at least thirteen fields and a name; the roll-number column is
authoritative when valid, else the id is extracted from the name. -/
def resolveRow (parts : List String) : Option Participant :=
  if 13 ≤ parts.length ∧ parts.getD 0 ("") ≠ "" then
    let name := parts.getD 0 ("")
    let roll := pyStrip (parts.getD 12 (""))
    let eid : Option String :=
      if roll ≠ "" ∧ is_valid_enrollment_id roll = true then some roll
      else extract_enrollment_id name
    match eid with
    | some e =>
      some ⟨e, clean_name name (some e), parse_duration (parts.getD 3 (""))⟩
    | none => none
  else none

/-- parse_csv_content participant loop: one participant per accepted row,
with no aggregation of repeated identities. -/
def participantsOfRows (rows : List (List String)) : List Participant :=
  rows.filterMap resolveRow

/-- Row-section selection: stop at a blank line or the activities
section. -/
def dataLines (lines : List String) : List String :=
  lines.takeWhile (fun l =>
    !(pyStrip l == "") && !(strContainsL (pyStrip l).data ("In-Meeting Activities").data))

/-- parse_csv_content restricted to the participant table. -/
def parse_participants (lines : List String) : List Participant :=
  participantsOfRows ((dataLines lines).map (processLine ("\t")))

/-- The presence test of log_attendance: duration at least ten percent of
the meeting duration. -/
def classify (d m : Nat) : Bool := decide ((m : ℚ) * (1/10) ≤ (d : ℚ))

structure LogRecord where
  log_id : Nat
  enrollment_id : String
  cohort_type : String
  cohort_number : String
  subject : String
  class_date : String
  teacher_name : String
  attendance : Bool
deriving DecidableEq

structure LogResult where
  inserted : Nat
  present : Nat
  absent : Nat
deriving DecidableEq

def logStep (ct cn subj cd tn : String) (m : Nat)
    (st : LogResult × Nat × List LogRecord) (p : Participant) :
    LogResult × Nat × List LogRecord :=
  let att := classify p.duration_minutes m
  let r : LogRecord := ⟨st.2.1, p.enrollment_id, ct, cn, subj, cd, tn, att⟩
  (⟨st.1.inserted + 1,
    st.1.present + (if att then 1 else 0),
    st.1.absent + (if att then 0 else 1)⟩,
   st.2.1 + 1, st.2.2 ++ [r])

/-- log_attendance: classify every participant and append one record per
participant with sequential log ids into the cohort log table. -/
def log_attendance (participants : List Participant) (ct cn subj cd tn : String)
    (m : Nat) (last_log_id : Nat) : LogResult × List LogRecord :=
  let st := participants.foldl (logStep ct cn subj cd tn m)
    (⟨0, 0, 0⟩, last_log_id + 1, [])
  (st.1, st.2.2)

/-- One iteration of the api update_stu_table loop: a sequential
read-modify-write against the current stu table (the stu schema is
shared with the backend variant). The per-row arithmetic is
line-for-line the same as the backend's, so the shared helpers
Backend.updateVals, Backend.insertRow and the keyed three-column write
Backend.applyUpd express it; the counter is the running updated_count. -/
def updStuStep (lk : List (String × Bool)) (ct cn : String)
    (st : List (String × Backend.StuRow) × Nat) (student : String × String) :
    List (String × Backend.StuRow) × Nat :=
  let wasP := (alook student.1 lk).getD false
  match alook student.1 st.1 with
  | some old =>
    (Backend.applyUpd st.1 (student.1, Backend.updateVals old wasP), st.2 + 1)
  | none =>
    (st.1 ++ [(student.1, Backend.insertRow student.2 ct cn wasP)], st.2 + 1)

/-- update_stu_table: for each roster student in order, look up their
stu row in the current state and update it, or insert a fresh one; the
attendance lookup dict is built by the same last-wins loop as in the
backend variant. Returns the new stu table, the updated count and the
error list. -/
def update_stu_table (onboarding : List (String × String))
    (records : List (String × Bool)) (stu : List (String × Backend.StuRow))
    (ct cn : String) : List (String × Backend.StuRow) × Nat × List String :=
  if onboarding.isEmpty then
    (stu, 0, ["No students found in onboarding table"])
  else
    let lk := Backend.buildLookup records
    let res := onboarding.foldl (updStuStep lk ct cn) (stu, 0)
    (res.1, res.2, [])

end Api

/-! Legacy variant: src/attendance_processor.py -/

namespace Legacy

/-- parse_duration: independent searches for hour, minute and second
tokens; seconds round up to the next whole minute. -/
def parse_duration (s : String) : Nat :=
  if s = "" ∨ pyStrip s = "" then 0
  else
    let t := (pyStrip s).data
    (searchNumBefore 'h' t).getD 0 * 60 + (searchNumBefore 'm' t).getD 0 +
      (match searchNumBefore 's' t with
       | some v => (v + 59) / 60
       | none => 0)

/-- extract_enrollment_id: canonical pattern search, then the loose
legacy pattern whose short suffix is zero-padded to four digits. -/
def extract_enrollment_id (name : String) : Option String :=
  match canonSearch name.data with
  | some m => some (String.mk m)
  | none =>
    match specialSearch name.data with
    | some pm => some (String.mk pm.1 ++ String.mk (zfill 4 pm.2))
    | none => none

/-- clean_name: drop the id, the Unverified marker and bracketed
segments, collapse whitespace, strip spaces and dashes. -/
def clean_name (name : String) (enrollment_id : Option String) : String :=
  if name = "" then ""
  else
    let l0 := name.data
    let l1 := match enrollment_id with
      | some e => removeWB e.data l0
      | none => l0
    let l2 := removeLit ("(Unverified)").data l1
    let l3 := removeBrackets l2
    let l4 := removeDashBrackets l3
    let l5 := pyStripList (collapseWs l4)
    let l6 := stripDashes l5
    String.mk (pyStripList l6)

structure Participant where
  enrollment_id : Option String
  name : String
  duration : String
  duration_minutes : Nat
deriving DecidableEq

/-- Row acceptance for one participant row: needs at least four fields
and a name; the row is kept when an id was extracted or the cleaned name
is non-empty. -/
def resolveRow (parts : List String) : Option Participant :=
  if 4 ≤ parts.length ∧ parts.getD 0 ("") ≠ "" then
    let name := parts.getD 0 ("")
    let dur := parts.getD 3 ("")
    let eid := extract_enrollment_id name
    let cn := clean_name name eid
    if eid.isSome ∨ cn ≠ "" then some ⟨eid, cn, dur, parse_duration dur⟩
    else none
  else none

/-- parse_csv_file participant loop. -/
def participantsOfRows (rows : List (List String)) : List Participant :=
  rows.filterMap resolveRow

/-- The presence test of update_attendance: attendance percentage of at
least sixty percent, with percentage zero when the meeting length is
not positive. -/
def classifyStatus (d m : Nat) : Bool :=
  decide ((3/5 : ℚ) ≤ (if 0 < m then (d : ℚ) / (m : ℚ) else 0))

structure UpdateRecord where
  enrollmentid : String
  name : String
  dateStatus : Option String
deriving DecidableEq

structure UpdateResult where
  processed : Nat
  present : Nat
  absent : Nat
deriving DecidableEq

/-- One iteration of the update_attendance loop. The upserted record
takes the extracted id, else an onboarding name match, else an UNKNOWN
placeholder numbered by the processed count. -/
def updStep (m : Nat) (lookupByName : String → Option String)
    (column_added : Bool) (st : UpdateResult × List UpdateRecord)
    (p : Participant) : UpdateResult × List UpdateRecord :=
  if p.enrollment_id = none ∧ p.name = "" then st
  else
    let att := classifyStatus p.duration_minutes m
    let status := if att then ("present" : String) else "absent"
    let eid := match p.enrollment_id with
      | some e => e
      | none =>
        match (if p.name ≠ "" then lookupByName p.name else none) with
        | some e => e
        | none => "UNKNOWN_" ++ toString st.1.processed
    let r : UpdateRecord := ⟨eid, (if p.name = "" then "Unknown" else p.name),
        if column_added then some status else none⟩
    (⟨st.1.processed + 1,
      st.1.present + (if att then 1 else 0),
      st.1.absent + (if att then 0 else 1)⟩,
     st.2 ++ [r])

/-- update_attendance over the participant list; external state is the
by-name onboarding lookup and whether the date column could be added. -/
def update_attendance (participants : List Participant) (m : Nat)
    (lookupByName : String → Option String) (column_added : Bool) :
    UpdateResult × List UpdateRecord :=
  participants.foldl (updStep m lookupByName column_added) (⟨0, 0, 0⟩, [])

end Legacy


/-! Derived specification notions used by the claim statements -/

namespace Backend

/-- Sum of the parsed durations of all rows resolving to one identity. -/
def rowsSum (rows : List (List String)) (eid : String) : ℚ :=
  (((rows.filterMap resolveRow).filter (fun e => decide (e.1 = eid))).map
    (fun e => e.2.2)).sum

/-- Whether some row resolves to the identity. -/
def rowsHit (rows : List (List String)) (eid : String) : Bool :=
  (rows.filterMap resolveRow).any (fun e => decide (e.1 = eid))

/-- The stu-table invariant: the stored percentage is the rounded ratio
of present to total classes, and present never exceeds total. -/
def StuInv (r : StuRow) : Prop :=
  r.overall_attendance =
      round2 ((r.present_classes : ℚ) / (r.total_classes : ℚ) * 100) ∧
    r.present_classes ≤ r.total_classes

end Backend

/-- An onboarding by-name lookup that never matches (empty onboarding
table). -/
def noLookup : String → Option String := fun _ => none

/-! Evaluation lemmas for the rational rounding model -/

theorem roundHalfEven_intCast (n : ℤ) : roundHalfEven ((n : ℚ)) = n := by
  simp only [roundHalfEven, Int.floor_intCast, sub_self]
  norm_num

theorem round2_intCast_mul (q : ℚ) (n : ℤ) (h : q * 100 = (n : ℚ)) :
    round2 q = (n : ℚ) / 100 := by
  rw [round2, h, roundHalfEven_intCast]

theorem roundHalfEven_up (q : ℚ) (n : ℤ) (h1 : (n : ℚ) + 1/2 < q)
    (h2 : q < (n : ℚ) + 1) : roundHalfEven q = n + 1 := by
  have hf : ⌊q⌋ = n := by
    rw [Int.floor_eq_iff]
    constructor <;> push_cast <;> linarith
  simp only [roundHalfEven, hf]
  rw [if_neg (by push_cast; linarith), if_pos (by push_cast; linarith)]

theorem backend_parse_duration_eval (s : String) (h : ¬ s = "") (a b c : ℕ)
    (hg : Backend.durRegexGroups (pyStrip s).data = (a, b, c)) :
    Backend.parse_duration s = round2 ((a * 60 + b : ℚ) + (c : ℚ) / 60) := by
  unfold Backend.parse_duration Backend.durRegexMatch
  rw [if_neg h, hg]

/-! Claim theorems -/

/-- C1 (counterexample): with a 90-minute meeting and 9 minutes of
attendance, the 10% policy says present (9 is at least a tenth of 90) and
the backend classifier agrees, but the legacy update_attendance
classifier marks the participant absent, so the threshold claim does not
hold in every processing variant. -/
theorem threshold_universal_fails :
    Legacy.classifyStatus 9 90 = false ∧ Backend.classify 9 90 = true ∧
      (90 : ℚ) * (1/10) ≤ (9 : ℚ) := by
  refine ⟨?_, ?_, by norm_num⟩
  · simp only [Legacy.classifyStatus]
    rw [decide_eq_false_iff_not]
    norm_num
  · simp only [Backend.classify]
    rw [decide_eq_true_eq]
    norm_num

/-- C1 (amended): the backend and api log_attendance classifiers mark a
participant present exactly when the duration is at least ten percent of
the meeting duration (boundary inclusive: 9 minutes of 90 is present,
8.99 is absent), while the legacy update_attendance classifier instead
uses a sixty percent attendance-percentage threshold. -/
theorem threshold_ten_percent_amended :
    (∀ d m : ℚ, Backend.classify d m = true ↔ m * (1/10) ≤ d) ∧
    (∀ d m : ℕ, Api.classify d m = true ↔ (m : ℚ) * (1/10) ≤ (d : ℚ)) ∧
    (∀ d m : ℕ, Legacy.classifyStatus d m = true ↔
      (3/5 : ℚ) ≤ (if 0 < m then (d : ℚ) / (m : ℚ) else 0)) ∧
    Backend.classify 9 90 = true ∧ Backend.classify (899/100) 90 = false := by
  refine ⟨fun d m => ?_, fun d m => ?_, fun d m => ?_, ?_, ?_⟩
  · simp [Backend.classify]
  · simp [Api.classify]
  · simp [Legacy.classifyStatus]
  · simp only [Backend.classify]
    rw [decide_eq_true_eq]
    norm_num
  · simp only [Backend.classify]
    rw [decide_eq_false_iff_not]
    norm_num

/-- C5 (counterexample): in fractional mode the backend parses
"1h 26m 27s" to 86.45 minutes, not the 87.45 claimed. -/
theorem fractional_literal_value_cex :
    Backend.parse_duration "1h 26m 27s" = 1729/20 ∧
      (1729/20 : ℚ) ≠ 8745/100 := by
  constructor
  · rw [backend_parse_duration_eval _ (by decide) 1 26 27 (by decide)]
    rw [round2_intCast_mul _ 8645 (by push_cast; norm_num)]
    push_cast
    norm_num
  · norm_num

/-- C5 (amended): the known duration literals parse to 87 / 60 / 2 / 0 in
the ceiling-seconds variants (api and legacy) and to 86.45 / 59.42 / 2 / 0
in the fractional backend variant. -/
theorem duration_literal_values :
    Api.parse_duration "1h 26m 27s" = 87 ∧
    Legacy.parse_duration "1h 26m 27s" = 87 ∧
    Backend.parse_duration "1h 26m 27s" = 1729/20 ∧
    Api.parse_duration "59m 25s" = 60 ∧
    Legacy.parse_duration "59m 25s" = 60 ∧
    Backend.parse_duration "59m 25s" = 2971/50 ∧
    Api.parse_duration "2m" = 2 ∧
    Legacy.parse_duration "2m" = 2 ∧
    Backend.parse_duration "2m" = 2 ∧
    Api.parse_duration "" = 0 ∧
    Legacy.parse_duration "" = 0 ∧
    Backend.parse_duration "" = 0 := by
  refine ⟨by decide, by decide, ?_, by decide, by decide, ?_, by decide,
    by decide, ?_, by decide, by decide, ?_⟩
  · rw [backend_parse_duration_eval _ (by decide) 1 26 27 (by decide)]
    rw [round2_intCast_mul _ 8645 (by push_cast; norm_num)]
    norm_num
  · rw [backend_parse_duration_eval _ (by decide) 0 59 25 (by decide)]
    rw [round2]
    rw [show (((0 : ℕ) * 60 + (59 : ℕ) : ℚ) + ((25 : ℕ) : ℚ) / 60) * 100 =
      17825/3 from by push_cast; norm_num]
    rw [roundHalfEven_up _ 5941 (by norm_num) (by norm_num)]
    norm_num
  · rw [backend_parse_duration_eval _ (by decide) 0 2 0 (by decide)]
    rw [round2_intCast_mul _ 200 (by push_cast; norm_num)]
    norm_num
  · simp [Backend.parse_duration]

/-- C6 (code bug): the string "90" contains a bare integer but every
variant parses it to 0. The backend's duration regex is made of three
optional groups, so re.match always succeeds (here matching the empty
prefix with all groups empty), which makes the documented bare-integer
fallback branch unreachable even though firstNum would have produced 90;
the legacy and api variants have no fallback at all. -/
theorem bare_integer_fallback_dead :
    Backend.parse_duration "90" = 0 ∧ Legacy.parse_duration "90" = 0 ∧
    Api.parse_duration "90" = 0 ∧ firstNum ("90").data = some 90 ∧
    Backend.durRegexMatch (pyStrip "90").data = some (0, 0, 0) := by
  refine ⟨?_, by decide, by decide, by decide, by decide⟩
  rw [backend_parse_duration_eval _ (by decide) 0 0 0 (by decide)]
  rw [round2_intCast_mul _ 0 (by push_cast; norm_num)]
  norm_num

/-- C8: the legacy resolver maps "25MBY025" through the zero-pad fallback
to "25MBY0025", which satisfies the canonical validity check; and whenever
the canonical pattern already matches in the input, the resolver returns
that match, so the fallback is never applied. -/
theorem legacy_zero_pad_resolution :
    (Legacy.extract_enrollment_id "25MBY025" = some "25MBY0025") ∧
    (Backend.is_valid_enrollment_id "25MBY0025" = true) ∧
    (∀ name m, canonSearch name.data = some m →
      Legacy.extract_enrollment_id name = some (String.mk m)) :=
  ⟨by decide, by decide, fun name m h => by
    simp [Legacy.extract_enrollment_id, h]⟩

/-- Witness for C8 at a concrete name containing a canonical id. -/
theorem legacy_zero_pad_resolution_witness :
    canonSearch ("ab 25MBY1234").data =
        some ['2', '5', 'M', 'B', 'Y', '1', '2', '3', '4'] ∧
      Legacy.extract_enrollment_id "ab 25MBY1234" =
        some (String.mk ['2', '5', 'M', 'B', 'Y', '1', '2', '3', '4']) :=
  ⟨by decide, legacy_zero_pad_resolution.2.2 _ _ (by decide)⟩

/-! Counter lemmas for the attendance loggers -/

theorem backend_logStep_foldl (ct cn subj cd tn : String) (m : ℚ)
    (ps : List Backend.Participant) :
    ∀ st : Backend.LogResult × Nat × List Backend.LogRecord,
      ((ps.foldl (Backend.logStep ct cn subj cd tn m) st).1.inserted =
        st.1.inserted + ps.length) ∧
      ((ps.foldl (Backend.logStep ct cn subj cd tn m) st).1.present +
          (ps.foldl (Backend.logStep ct cn subj cd tn m) st).1.absent =
        st.1.present + st.1.absent + ps.length) := by
  induction ps with
  | nil => intro st; simp
  | cons p rest ih =>
    intro st
    simp only [List.foldl_cons, List.length_cons]
    obtain ⟨h1, h2⟩ := ih (Backend.logStep ct cn subj cd tn m st p)
    constructor
    · rw [h1]; simp only [Backend.logStep]; omega
    · rw [h2]; simp only [Backend.logStep]
      split_ifs <;> omega

theorem api_logStep_foldl (ct cn subj cd tn : String) (m : Nat)
    (ps : List Api.Participant) :
    ∀ st : Api.LogResult × Nat × List Api.LogRecord,
      ((ps.foldl (Api.logStep ct cn subj cd tn m) st).1.inserted =
        st.1.inserted + ps.length) ∧
      ((ps.foldl (Api.logStep ct cn subj cd tn m) st).1.present +
          (ps.foldl (Api.logStep ct cn subj cd tn m) st).1.absent =
        st.1.present + st.1.absent + ps.length) := by
  induction ps with
  | nil => intro st; simp
  | cons p rest ih =>
    intro st
    simp only [List.foldl_cons, List.length_cons]
    obtain ⟨h1, h2⟩ := ih (Api.logStep ct cn subj cd tn m st p)
    constructor
    · rw [h1]; simp only [Api.logStep]; omega
    · rw [h2]; simp only [Api.logStep]
      split_ifs <;> omega

/-- C9: in both the backend and api log_attendance, the returned counters
always satisfy inserted = present + absent, and inserted equals the
number of participants processed. -/
theorem log_counters_consistent :
    (∀ (ps : List Backend.Participant) ct cn subj cd tn (m : ℚ) lid,
      (Backend.log_attendance ps ct cn subj cd tn m lid).1.inserted =
          (Backend.log_attendance ps ct cn subj cd tn m lid).1.present +
            (Backend.log_attendance ps ct cn subj cd tn m lid).1.absent ∧
        (Backend.log_attendance ps ct cn subj cd tn m lid).1.inserted =
          ps.length) ∧
    (∀ (ps : List Api.Participant) ct cn subj cd tn (m : Nat) lid,
      (Api.log_attendance ps ct cn subj cd tn m lid).1.inserted =
          (Api.log_attendance ps ct cn subj cd tn m lid).1.present +
            (Api.log_attendance ps ct cn subj cd tn m lid).1.absent ∧
        (Api.log_attendance ps ct cn subj cd tn m lid).1.inserted =
          ps.length) := by
  constructor
  · intro ps ct cn subj cd tn m lid
    obtain ⟨h1, h2⟩ :=
      backend_logStep_foldl ct cn subj cd tn m ps (⟨0, 0, 0⟩, lid + 1, [])
    unfold Backend.log_attendance
    dsimp only
    dsimp only at h1 h2
    constructor
    · omega
    · omega
  · intro ps ct cn subj cd tn m lid
    obtain ⟨h1, h2⟩ :=
      api_logStep_foldl ct cn subj cd tn m ps (⟨0, 0, 0⟩, lid + 1, [])
    unfold Api.log_attendance
    dsimp only
    dsimp only at h1 h2
    constructor
    · omega
    · omega

/-! Non-negativity of the rounding model -/

theorem roundHalfEven_nonneg (q : ℚ) (h : 0 ≤ q) : 0 ≤ roundHalfEven q := by
  have hf : (0 : ℤ) ≤ ⌊q⌋ := Int.le_floor.mpr (by exact_mod_cast h)
  simp only [roundHalfEven]
  split_ifs <;> omega

theorem round2_nonneg (q : ℚ) (h : 0 ≤ q) : 0 ≤ round2 q := by
  rw [round2]
  apply div_nonneg _ (by norm_num)
  exact_mod_cast roundHalfEven_nonneg _ (by positivity)

/-- C10: every duration parser is a total function of the input string
and always returns a non-negative number of minutes, for every string
including empty, whitespace-only and digit-free inputs. -/
theorem parse_duration_total_nonneg :
    ∀ s : String, 0 ≤ Backend.parse_duration s ∧
      0 ≤ (Legacy.parse_duration s : ℤ) ∧ 0 ≤ (Api.parse_duration s : ℤ) := by
  intro s
  refine ⟨?_, Int.natCast_nonneg _, Int.natCast_nonneg _⟩
  unfold Backend.parse_duration Backend.durRegexMatch
  by_cases hs : s = ""
  · rw [if_pos hs]
  · rw [if_neg hs]
    dsimp only
    apply round2_nonneg
    positivity

/-! Association-list lemmas -/

theorem alook_append {α : Type} (k : String) (a b : List (String × α)) :
    alook k (a ++ b) =
      match alook k a with
      | some v => some v
      | none => alook k b := by
  induction a with
  | nil => simp [alook]
  | cons p t ih =>
    by_cases h : p.1 = k
    · simp [alook, h]
    · simp [alook, h, ih]

theorem alook_eq_none_iff {α : Type} (k : String) (m : List (String × α)) :
    alook k m = none ↔ k ∉ m.map Prod.fst := by
  induction m with
  | nil => simp [alook]
  | cons p t ih =>
    by_cases h : p.1 = k
    · subst h
      simp [alook]
    · simp [alook, h, ih, Ne.symm h]

theorem alook_mem {α : Type} {k : String} {m : List (String × α)} {v : α}
    (h : alook k m = some v) : (k, v) ∈ m := by
  induction m with
  | nil => simp [alook] at h
  | cons p t ih =>
    obtain ⟨a, b⟩ := p
    by_cases hp : a = k
    · simp only [alook, if_pos hp] at h
      subst hp
      injection h with h2
      subst h2
      exact List.mem_cons_self _ _
    · simp only [alook, if_neg hp] at h
      exact List.mem_cons_of_mem _ (ih h)

theorem alook_map_keyUpd {α : Type} (k eid : String) (f : α → α)
    (m : List (String × α)) :
    alook k (m.map (fun p => if p.1 = eid then (p.1, f p.2) else p)) =
      if k = eid then (alook k m).map f else alook k m := by
  induction m with
  | nil => by_cases h : k = eid <;> simp [alook, h]
  | cons p t ih =>
    obtain ⟨a, b⟩ := p
    by_cases hae : a = eid
    · subst hae
      by_cases hak : a = k
      · subst hak
        simp [alook, ih]
      · simp [alook, hak, ih]
    · by_cases hak : a = k
      · subst hak
        simp [alook, hae]
      · simp [alook, hae, hak, ih]

/-! Aggregation lemmas for the backend parser -/

theorem alook_aggUpd (k rid : String) (d : ℚ)
    (m : List (String × String × ℚ)) :
    alook k (m.map (fun p => if p.1 = rid then (p.1, p.2.1, p.2.2 + d) else p)) =
      if k = rid then (alook k m).map (fun w => (w.1, w.2 + d))
      else alook k m := by
  induction m with
  | nil => by_cases h : k = rid <;> simp [alook, h]
  | cons p t ih =>
    obtain ⟨a, b⟩ := p
    by_cases har : a = rid
    · subst har
      by_cases hak : a = k
      · subst hak
        simp [alook, ih]
      · simp [alook, hak, ih, Ne.symm hak]
    · by_cases hak : a = k
      · subst hak
        simp [alook, har, Ne.symm har]
      · simp [alook, har, hak, ih]

theorem rowsSum_cons_none (row : List String) (rows : List (List String))
    (eid : String) (h : Backend.resolveRow row = none) :
    Backend.rowsSum (row :: rows) eid = Backend.rowsSum rows eid := by
  simp [Backend.rowsSum, List.filterMap_cons, h]

theorem rowsHit_cons_none (row : List String) (rows : List (List String))
    (eid : String) (h : Backend.resolveRow row = none) :
    Backend.rowsHit (row :: rows) eid = Backend.rowsHit rows eid := by
  simp [Backend.rowsHit, List.filterMap_cons, h]

theorem rowsSum_cons_some (row : List String) (rows : List (List String))
    (eid : String) (e : String × String × ℚ)
    (h : Backend.resolveRow row = some e) :
    Backend.rowsSum (row :: rows) eid =
      if e.1 = eid then e.2.2 + Backend.rowsSum rows eid
      else Backend.rowsSum rows eid := by
  by_cases hk : e.1 = eid <;>
    simp [Backend.rowsSum, List.filterMap_cons, h, List.filter_cons, hk]

theorem rowsHit_cons_some (row : List String) (rows : List (List String))
    (eid : String) (e : String × String × ℚ)
    (h : Backend.resolveRow row = some e) :
    Backend.rowsHit (row :: rows) eid =
      (decide (e.1 = eid) || Backend.rowsHit rows eid) := by
  simp [Backend.rowsHit, List.filterMap_cons, h, List.any_cons]

theorem aggregate_loop (rows : List (List String)) (eid : String) :
    ∀ acc : List (String × String × ℚ),
      (alook eid (rows.foldl Backend.aggStep acc)).map (fun e => e.2) =
        match (alook eid acc).map (fun e => e.2) with
        | some t => some (t + Backend.rowsSum rows eid)
        | none =>
          if Backend.rowsHit rows eid then some (Backend.rowsSum rows eid)
          else none := by
  induction rows with
  | nil =>
    intro acc
    simp only [List.foldl_nil]
    have hs : Backend.rowsSum [] eid = 0 := by simp [Backend.rowsSum]
    have hh : Backend.rowsHit [] eid = false := by simp [Backend.rowsHit]
    rw [hs, hh]
    cases hx : (alook eid acc).map (fun e => e.2) <;> simp
  | cons row rest ih =>
    intro acc
    simp only [List.foldl_cons]
    rw [ih]
    cases hres : Backend.resolveRow row with
    | none =>
      have hstep : Backend.aggStep acc row = acc := by
        simp [Backend.aggStep, hres]
      rw [hstep, rowsSum_cons_none _ _ _ hres, rowsHit_cons_none _ _ _ hres]
    | some e =>
      obtain ⟨rid, nm, d⟩ := e
      rw [rowsSum_cons_some _ _ _ _ hres, rowsHit_cons_some _ _ _ _ hres]
      by_cases hk : rid = eid
      · subst hk
        cases hacc : alook rid acc with
        | some v =>
          have hstep : Backend.aggStep acc row =
              acc.map (fun p => if p.1 = rid then (p.1, p.2.1, p.2.2 + d) else p) := by
            simp [Backend.aggStep, hres, hacc]
          rw [hstep, alook_aggUpd, if_pos rfl, hacc]
          simp [add_assoc]
        | none =>
          have hstep : Backend.aggStep acc row = acc ++ [(rid, nm, d)] := by
            simp [Backend.aggStep, hres, hacc]
          rw [hstep, alook_append, hacc]
          simp [alook]
      · cases hacc : alook rid acc with
        | some v =>
          have hstep : Backend.aggStep acc row =
              acc.map (fun p => if p.1 = rid then (p.1, p.2.1, p.2.2 + d) else p) := by
            simp [Backend.aggStep, hres, hacc]
          rw [hstep, alook_aggUpd, if_neg (fun hh => hk hh.symm)]
          simp [hk]
        | none =>
          have hstep : Backend.aggStep acc row = acc ++ [(rid, nm, d)] := by
            simp [Backend.aggStep, hres, hacc]
          rw [hstep, alook_append]
          cases hl : alook eid acc <;> simp [alook, hk, Ne.symm hk, hl]

theorem aggregate_keys_nodup (rows : List (List String)) :
    ∀ acc : List (String × String × ℚ), (acc.map Prod.fst).Nodup →
      ((rows.foldl Backend.aggStep acc).map Prod.fst).Nodup := by
  induction rows with
  | nil => intro acc h; simpa
  | cons row rest ih =>
    intro acc h
    simp only [List.foldl_cons]
    apply ih
    cases hres : Backend.resolveRow row with
    | none => simpa [Backend.aggStep, hres]
    | some e =>
      cases hacc : alook e.1 acc with
      | some v =>
        simp only [Backend.aggStep, hres, hacc]
        have hkeys : (acc.map (fun p =>
            if p.1 = e.1 then (p.1, p.2.1, p.2.2 + e.2.2) else p)).map Prod.fst =
            acc.map Prod.fst := by
          rw [List.map_map]
          apply List.map_congr_left
          intro p _
          by_cases hp : p.1 = e.1 <;> simp [hp]
        rw [hkeys]
        exact h
      | none =>
        simp only [Backend.aggStep, hres, hacc]
        rw [List.map_append]
        simp only [List.map_cons, List.map_nil]
        rw [List.nodup_append]
        refine ⟨h, List.nodup_singleton _, ?_⟩
        intro x hx hmem
        simp only [List.mem_singleton] at hmem
        subst hmem
        exact (alook_eq_none_iff _ _).mp hacc hx

theorem backend_extract_valid (name : String) (v : String)
    (h : Backend.extract_enrollment_id name = some v) :
    Backend.is_valid_enrollment_id v = true := by
  unfold Backend.extract_enrollment_id at h
  cases hc : canonSearch name.data with
  | none => rw [hc] at h; cases h
  | some m =>
    rw [hc] at h
    dsimp only at h
    by_cases hv : Backend.is_valid_enrollment_id (String.mk m) = true
    · rw [if_pos hv] at h
      injection h with h2
      subst h2
      exact hv
    · rw [if_neg hv] at h
      cases h

theorem backend_resolveRow_valid (parts : List String) (e : String × String × ℚ)
    (h : Backend.resolveRow parts = some e) :
    Backend.is_valid_enrollment_id e.1 = true := by
  unfold Backend.resolveRow at h
  by_cases hc : 4 ≤ parts.length ∧ parts.getD 0 ("") ≠ "" ∧ parts.getD 3 ("") ≠ ""
  · rw [if_pos hc] at h
    dsimp only at h
    by_cases hroll : pyStrip (parts.getD 12 ("")) ≠ "" ∧
        Backend.is_valid_enrollment_id (pyStrip (parts.getD 12 (""))) = true
    · rw [if_pos hroll] at h
      injection h with h2
      rw [← h2]
      exact hroll.2
    · rw [if_neg hroll] at h
      cases hx : Backend.extract_enrollment_id (parts.getD 0 ("")) with
      | none => rw [hx] at h; cases h
      | some w =>
        rw [hx] at h
        injection h with h2
        rw [← h2]
        exact backend_extract_valid _ _ hx
  · rw [if_neg hc] at h
    cases h

theorem rowsSum_perm (rows rows2 : List (List String))
    (h : rows.Perm rows2) (eid : String) :
    Backend.rowsSum rows eid = Backend.rowsSum rows2 eid := by
  unfold Backend.rowsSum
  exact (((h.filterMap _).filter _).map _).sum_eq

theorem aggregate_entries_valid (rows : List (List String)) :
    ∀ acc : List (String × String × ℚ),
      (∀ p ∈ acc, Backend.is_valid_enrollment_id p.1 = true) →
      ∀ p ∈ rows.foldl Backend.aggStep acc,
        Backend.is_valid_enrollment_id p.1 = true := by
  induction rows with
  | nil => intro acc h; simpa using h
  | cons row rest ih =>
    intro acc h
    simp only [List.foldl_cons]
    apply ih
    intro p hp
    cases hres : Backend.resolveRow row with
    | none =>
      rw [show Backend.aggStep acc row = acc from by simp [Backend.aggStep, hres]] at hp
      exact h p hp
    | some e =>
      cases hacc : alook e.1 acc with
      | some v =>
        simp only [Backend.aggStep, hres, hacc] at hp
        obtain ⟨q, hq, hqe⟩ := List.mem_map.mp hp
        by_cases hqk : q.1 = e.1
        · rw [← hqe]
          simp only [if_pos hqk]
          rw [show ((q.1, q.2.1, q.2.2 + e.2.2) : String × String × ℚ).1 = q.1 from rfl]
          exact h q hq
        · rw [← hqe]
          simp only [if_neg hqk]
          exact h q hq
      | none =>
        simp only [Backend.aggStep, hres, hacc] at hp
        rcases List.mem_append.mp hp with hin | hin
        · exact h p hin
        · simp only [List.mem_singleton] at hin
          subst hin
          exact backend_resolveRow_valid _ _ hres

theorem backend_log_records_ids (ps : List Backend.Participant)
    (ct cn subj cd tn : String) (m : ℚ) :
    ∀ st : Backend.LogResult × Nat × List Backend.LogRecord,
      ((ps.foldl (Backend.logStep ct cn subj cd tn m) st).2.2).map
          Backend.LogRecord.enrollment_id =
        (st.2.2).map Backend.LogRecord.enrollment_id ++
          ps.map Backend.Participant.enrollment_id := by
  induction ps with
  | nil => intro st; simp
  | cons p rest ih =>
    intro st
    simp only [List.foldl_cons, List.map_cons]
    rw [ih]
    simp [Backend.logStep]

/-- C2 (amended): the backend parser produces at most one participant
entry per resolved identity; the entry's duration is the sum of the
parsed durations of all rows resolving to that identity, and that total
is invariant under any permutation of the rows. -/
theorem backend_aggregation_spec (rows : List (List String)) (eid : String) :
    ((Backend.aggregate rows).map Prod.fst).Nodup ∧
      ((alook eid (Backend.aggregate rows)).map (fun e => e.2) =
        if Backend.rowsHit rows eid then some (Backend.rowsSum rows eid)
        else none) ∧
      ∀ rows2, rows.Perm rows2 →
        Backend.rowsSum rows eid = Backend.rowsSum rows2 eid := by
  refine ⟨aggregate_keys_nodup rows [] (by simp), ?_,
    fun rows2 h => rowsSum_perm _ _ h eid⟩
  have := aggregate_loop rows eid []
  rw [show alook eid ([] : List (String × String × ℚ)) = none from rfl] at this
  simpa [Backend.aggregate] using this

/-- Witness for C2: two rows of one identity in either order sum to the
same total (5m + 3m = 3m + 5m for identity 25MBY0001). -/
theorem backend_aggregation_spec_witness :
    (List.Perm [["X 25MBY0001", "", "", "5m"], ["X 25MBY0001", "", "", "3m"]]
        [["X 25MBY0001", "", "", "3m"], ["X 25MBY0001", "", "", "5m"]]) ∧
      Backend.rowsSum
          [["X 25MBY0001", "", "", "5m"], ["X 25MBY0001", "", "", "3m"]]
          "25MBY0001" =
        Backend.rowsSum
          [["X 25MBY0001", "", "", "3m"], ["X 25MBY0001", "", "", "5m"]]
          "25MBY0001" :=
  ⟨List.Perm.swap _ _ _,
    (backend_aggregation_spec _ "25MBY0001").2.2 _ (List.Perm.swap _ _ _)⟩

/-- C2 (counterexample): the api variant does not aggregate repeated
identities: two accepted rows carrying the same roll number produce two
participant entries for that identity. -/
theorem api_duplicate_entries :
    (Api.participantsOfRows
        [["X", "", "", "5m", "", "", "", "", "", "", "", "", "25MBY0001"],
         ["X", "", "", "3m", "", "", "", "", "", "", "", "", "25MBY0001"]]).map
      Api.Participant.enrollment_id = ["25MBY0001", "25MBY0001"] := by decide

theorem api_extract_valid (name : String) (v : String)
    (h : Api.extract_enrollment_id name = some v) :
    Api.is_valid_enrollment_id v = true := by
  unfold Api.extract_enrollment_id at h
  cases hc : canonSearch name.data with
  | none => rw [hc] at h; cases h
  | some m =>
    rw [hc] at h
    dsimp only at h
    by_cases hv : Api.is_valid_enrollment_id (String.mk m) = true
    · rw [if_pos hv] at h
      injection h with h2
      subst h2
      exact hv
    · rw [if_neg hv] at h
      cases h

theorem api_resolveRow_valid (parts : List String) (p : Api.Participant)
    (h : Api.resolveRow parts = some p) :
    Api.is_valid_enrollment_id p.enrollment_id = true := by
  unfold Api.resolveRow at h
  by_cases hc : 13 ≤ parts.length ∧ parts.getD 0 ("") ≠ ""
  · rw [if_pos hc] at h
    dsimp only at h
    by_cases hroll : pyStrip (parts.getD 12 ("")) ≠ "" ∧
        Api.is_valid_enrollment_id (pyStrip (parts.getD 12 (""))) = true
    · rw [if_pos hroll] at h
      injection h with h2
      rw [← h2]
      exact hroll.2
    · rw [if_neg hroll] at h
      cases hx : Api.extract_enrollment_id (parts.getD 0 ("")) with
      | none => rw [hx] at h; cases h
      | some w =>
        rw [hx] at h
        injection h with h2
        rw [← h2]
        exact api_extract_valid _ _ hx
  · rw [if_neg hc] at h
    cases h

theorem api_log_records_ids (ps : List Api.Participant)
    (ct cn subj cd tn : String) (m : Nat) :
    ∀ st : Api.LogResult × Nat × List Api.LogRecord,
      ((ps.foldl (Api.logStep ct cn subj cd tn m) st).2.2).map
          Api.LogRecord.enrollment_id =
        (st.2.2).map Api.LogRecord.enrollment_id ++
          ps.map Api.Participant.enrollment_id := by
  induction ps with
  | nil => intro st; simp
  | cons p rest ih =>
    intro st
    simp only [List.foldl_cons, List.map_cons]
    rw [ih]
    simp [Api.logStep]

/-- C7 (amended): in both the backend and api variants every participant
that survives parsing carries a valid enrollment id (identity-less rows
are dropped), and every record appended by either log_attendance carries
exactly the participants' identities, so no placeholder or empty
identity is ever logged there. The legacy variant does not have this
property. -/
theorem no_identityless_participants :
    (∀ (rows : List (List String)) (p : Backend.Participant),
      p ∈ Backend.participantsOfRows rows →
        Backend.is_valid_enrollment_id p.enrollment_id = true) ∧
    (∀ (rows : List (List String)) (p : Api.Participant),
      p ∈ Api.participantsOfRows rows →
        Api.is_valid_enrollment_id p.enrollment_id = true) ∧
    (∀ (ps : List Backend.Participant) ct cn subj cd tn (m : ℚ) lid,
      ((Backend.log_attendance ps ct cn subj cd tn m lid).2).map
          Backend.LogRecord.enrollment_id =
        ps.map Backend.Participant.enrollment_id) ∧
    (∀ (ps : List Api.Participant) ct cn subj cd tn (m : Nat) lid,
      ((Api.log_attendance ps ct cn subj cd tn m lid).2).map
          Api.LogRecord.enrollment_id =
        ps.map Api.Participant.enrollment_id) := by
  refine ⟨?_, ?_, ?_, ?_⟩
  · intro rows p hp
    unfold Backend.participantsOfRows at hp
    obtain ⟨e, he, hep⟩ := List.mem_map.mp hp
    have hv := aggregate_entries_valid rows [] (by simp) e he
    rw [← hep]
    exact hv
  · intro rows p hp
    unfold Api.participantsOfRows at hp
    obtain ⟨parts, hin, hres⟩ := List.mem_filterMap.mp hp
    exact api_resolveRow_valid parts p hres
  · intro ps ct cn subj cd tn m lid
    have hrec := backend_log_records_ids ps ct cn subj cd tn m
      (⟨0, 0, 0⟩, lid + 1, [])
    unfold Backend.log_attendance
    dsimp only
    rw [hrec]
    simp
  · intro ps ct cn subj cd tn m lid
    have hrec := api_log_records_ids ps ct cn subj cd tn m
      (⟨0, 0, 0⟩, lid + 1, [])
    unfold Api.log_attendance
    dsimp only
    rw [hrec]
    simp

/-- Witness for C7 at concrete accepted rows of both variants. -/
theorem no_identityless_participants_witness :
    ((Backend.Participant.mk "25MBY0001" "X" 5) ∈
        Backend.participantsOfRows [["X 25MBY0001", "", "", "5m"]] ∧
      Backend.is_valid_enrollment_id
        (Backend.Participant.mk "25MBY0001" "X" 5).enrollment_id = true) ∧
    ((Api.Participant.mk "25MBY0001" "X" 5) ∈
        Api.participantsOfRows
          [["X", "", "", "5m", "", "", "", "", "", "", "", "", "25MBY0001"]] ∧
      Api.is_valid_enrollment_id
        (Api.Participant.mk "25MBY0001" "X" 5).enrollment_id = true) := by
  have hd : Backend.parse_duration "5m" = 5 := by
    rw [backend_parse_duration_eval _ (by decide) 0 5 0 (by decide)]
    rw [round2_intCast_mul _ 500 (by push_cast; norm_num)]
    norm_num
  have hr : Backend.resolveRow ["X 25MBY0001", "", "", "5m"] =
      some ("25MBY0001", "X", 5) := by
    unfold Backend.resolveRow
    rw [if_pos (by decide)]
    dsimp only
    rw [if_neg (by decide)]
    rw [show (["X 25MBY0001", "", "", "5m"].getD 0 ("")) = "X 25MBY0001" from rfl,
      show (["X 25MBY0001", "", "", "5m"].getD 3 ("")) = "5m" from rfl]
    rw [show Backend.extract_enrollment_id "X 25MBY0001" = some "25MBY0001"
      from by decide]
    dsimp only
    rw [show Backend.clean_name "X 25MBY0001" (some "25MBY0001") = "X"
      from by decide, hd]
  have hmem : (Backend.Participant.mk "25MBY0001" "X" 5) ∈
      Backend.participantsOfRows [["X 25MBY0001", "", "", "5m"]] := by
    unfold Backend.participantsOfRows Backend.aggregate
    rw [List.foldl_cons, List.foldl_nil]
    rw [show Backend.aggStep [] ["X 25MBY0001", "", "", "5m"] =
      [("25MBY0001", "X", 5)] from by simp [Backend.aggStep, hr, alook]]
    simp
  exact ⟨⟨hmem, no_identityless_participants.1 _ _ hmem⟩,
    ⟨by decide, no_identityless_participants.2.1
      [["X", "", "", "5m", "", "", "", "", "", "", "", "", "25MBY0001"]]
      (Api.Participant.mk "25MBY0001" "X" 5) (by decide)⟩⟩

/-- C7 (counterexample): the legacy variant keeps a row whose name yields
no identity (the cleaned name is non-empty) and update_attendance upserts
a record for it with the placeholder identity UNKNOWN_0, so an
identity-less row does produce an attendance write there. -/
theorem legacy_placeholder_record :
    Legacy.participantsOfRows [["John", "", "", "5m"]] =
        [Legacy.Participant.mk none "John" "5m" 5] ∧
      ((Legacy.update_attendance
          (Legacy.participantsOfRows [["John", "", "", "5m"]]) 90 noLookup
          true).2).map Legacy.UpdateRecord.enrollmentid = ["UNKNOWN_0"] := by
  constructor
  · decide
  · rw [show Legacy.participantsOfRows [["John", "", "", "5m"]] =
      [Legacy.Participant.mk none "John" "5m" 5] from by decide]
    unfold Legacy.update_attendance
    rw [List.foldl_cons, List.foldl_nil]
    rw [show Legacy.updStep 90 noLookup true (⟨0, 0, 0⟩, [])
        (Legacy.Participant.mk none "John" "5m" 5) =
      (⟨1, 0, 1⟩, [Legacy.UpdateRecord.mk "UNKNOWN_0" "John" (some "absent")])
      from ?_]
    · decide
    · unfold Legacy.updStep
      rw [if_neg (by decide)]
      dsimp only
      rw [show Legacy.classifyStatus 5 90 = false from ?_]
      · rfl
      · simp only [Legacy.classifyStatus]
        rw [decide_eq_false_iff_not]
        norm_num

/-! Lemmas for the reconciler's attendance lookup -/

theorem alook_boolUpd (k k2 : String) (v : Bool) (m : List (String × Bool)) :
    alook k (m.map (fun p => if p.1 = k2 then (p.1, v) else p)) =
      if k = k2 then (alook k m).map (fun _ => v) else alook k m := by
  induction m with
  | nil => by_cases h : k = k2 <;> simp [alook, h]
  | cons p t ih =>
    obtain ⟨a, b⟩ := p
    by_cases har : a = k2
    · subst har
      by_cases hak : a = k
      · subst hak
        simp [alook, ih]
      · simp [alook, hak, ih, Ne.symm hak]
    · by_cases hak : a = k
      · subst hak
        simp [alook, har, Ne.symm har]
      · simp [alook, har, hak, ih]

theorem alook_dictInsert (k k2 : String) (v : Bool) (m : List (String × Bool)) :
    alook k (Backend.dictInsert m k2 v) =
      if k = k2 then some v else alook k m := by
  unfold Backend.dictInsert
  by_cases hs : (alook k2 m).isSome
  · rw [if_pos hs, alook_boolUpd]
    by_cases hk : k = k2
    · subst hk
      obtain ⟨w, hw⟩ := Option.isSome_iff_exists.mp hs
      simp [hw]
    · simp [hk]
  · rw [if_neg hs, alook_append]
    have hnone : alook k2 m = none := Option.not_isSome_iff_eq_none.mp hs
    by_cases hk : k = k2
    · subst hk
      rw [hnone]
      simp [alook]
    · cases hx : alook k m <;> simp [alook, hk, hx, Ne.symm hk]

theorem buildLookup_loop (recs : List (String × Bool)) :
    ∀ acc, ((recs.map Prod.fst).Nodup) → (∀ p ∈ recs, alook p.1 acc = none) →
      ∀ k, alook k (recs.foldl (fun m r => Backend.dictInsert m r.1 r.2) acc) =
        match alook k acc with
        | some v => some v
        | none => alook k recs := by
  induction recs with
  | nil =>
    intro acc _ _ k
    cases hx : alook k acc <;> simp [alook, hx]
  | cons r rest ih =>
    intro acc hnd hdisj k
    simp only [List.foldl_cons]
    have hnd2 : (rest.map Prod.fst).Nodup := (List.nodup_cons.mp (by simpa using hnd)).2
    have hhead : r.1 ∉ rest.map Prod.fst := (List.nodup_cons.mp (by simpa using hnd)).1
    have hdisj2 : ∀ p ∈ rest, alook p.1 (Backend.dictInsert acc r.1 r.2) = none := by
      intro p hp
      rw [alook_dictInsert]
      have hne : p.1 ≠ r.1 := by
        intro he
        exact hhead (he ▸ List.mem_map_of_mem Prod.fst hp)
      rw [if_neg hne]
      exact hdisj p (List.mem_cons_of_mem _ hp)
    rw [ih (Backend.dictInsert acc r.1 r.2) hnd2 hdisj2 k, alook_dictInsert]
    by_cases hk : k = r.1
    · subst hk
      rw [hdisj r (List.mem_cons_self _ _)]
      simp [alook]
    · rw [if_neg hk]
      cases hx : alook k acc <;> simp [alook, Ne.symm hk]

theorem any_false_of_not_mem_keys (rest : List (String × Bool)) (k : String)
    (h : k ∉ rest.map Prod.fst) :
    rest.any (fun r => decide (r.1 = k) && r.2) = false := by
  induction rest with
  | nil => simp
  | cons r t ih =>
    simp only [List.map_cons, List.mem_cons] at h
    push_neg at h
    simp only [List.any_cons]
    rw [ih h.2]
    have hne : ¬ r.1 = k := fun he => h.1 he.symm
    simp [hne]

theorem alook_getD_any (recs : List (String × Bool)) (k : String)
    (hnd : (recs.map Prod.fst).Nodup) :
    (alook k recs).getD false = recs.any (fun r => decide (r.1 = k) && r.2) := by
  induction recs with
  | nil => simp [alook]
  | cons r t ih =>
    by_cases hk : r.1 = k
    · have hnotin : k ∉ t.map Prod.fst :=
        hk ▸ (List.nodup_cons.mp (by simpa using hnd)).1
      rw [any_false_of_not_mem_keys t k hnotin] at *
      simp [alook, hk, any_false_of_not_mem_keys t k hnotin]
    · simp only [alook, if_neg hk, List.any_cons]
      rw [ih (List.nodup_cons.mp (by simpa using hnd)).2]
      simp [hk]

theorem buildLookup_any (recs : List (String × Bool)) (k : String)
    (hnd : (recs.map Prod.fst).Nodup) :
    (alook k (Backend.buildLookup recs)).getD false =
      recs.any (fun r => decide (r.1 = k) && r.2) := by
  rw [Backend.buildLookup,
    buildLookup_loop recs [] hnd (fun p _ => rfl) k]
  exact alook_getD_any recs k hnd

/-! Lemmas for the reconciler's plan and apply phases -/

theorem planStep_foldl (stu : List (String × Backend.StuRow))
    (lk : List (String × Bool)) (ct cn : String)
    (l : List (String × String)) :
    ∀ u i, l.foldl (Backend.planStep stu lk ct cn) (u, i) =
      (u ++ l.filterMap (fun st => (alook st.1 stu).map (fun old =>
          (st.1, Backend.updateVals old ((alook st.1 lk).getD false)))),
       i ++ l.filterMap (fun st =>
          match alook st.1 stu with
          | some _ => none
          | none => some (st.1,
              Backend.insertRow st.2 ct cn ((alook st.1 lk).getD false)))) := by
  induction l with
  | nil => intro u i; simp
  | cons st rest ih =>
    intro u i
    simp only [List.foldl_cons, List.filterMap_cons]
    cases hs : alook st.1 stu with
    | some old =>
      rw [show Backend.planStep stu lk ct cn (u, i) st =
        (u ++ [(st.1, Backend.updateVals old ((alook st.1 lk).getD false))], i)
        from by simp [Backend.planStep, hs]]
      rw [ih]
      simp [hs]
    | none =>
      rw [show Backend.planStep stu lk ct cn (u, i) st =
        (u, i ++ [(st.1, Backend.insertRow st.2 ct cn
          ((alook st.1 lk).getD false))]) from by simp [Backend.planStep, hs]]
      rw [ih]
      simp [hs]

theorem alook_applyUpd (k : String) (s : List (String × Backend.StuRow))
    (u : String × (Nat × Nat × ℚ)) :
    alook k (Backend.applyUpd s u) =
      if k = u.1 then
        (alook k s).map (fun row => { row with
          total_classes := u.2.1
          present_classes := u.2.2.1
          overall_attendance := u.2.2.2 })
      else alook k s := by
  obtain ⟨uk, u2⟩ := u
  unfold Backend.applyUpd
  induction s with
  | nil => by_cases h : k = uk <;> simp [alook, h]
  | cons p t ih =>
    obtain ⟨a, b⟩ := p
    by_cases har : a = uk
    · subst har
      by_cases hak : a = k
      · subst hak
        simp [alook, ih]
      · simp [alook, hak, ih, Ne.symm hak]
    · by_cases hak : a = k
      · subst hak
        simp [alook, har, Ne.symm har]
      · simp [alook, har, hak, ih]

theorem alook_foldl_applyUpd_not_mem (ups : List (String × (Nat × Nat × ℚ)))
    (k : String) (h : k ∉ ups.map Prod.fst) :
    ∀ s, alook k (ups.foldl Backend.applyUpd s) = alook k s := by
  induction ups with
  | nil => intro s; simp
  | cons u t ih =>
    intro s
    simp only [List.map_cons, List.mem_cons] at h
    push_neg at h
    simp only [List.foldl_cons]
    rw [ih h.2, alook_applyUpd, if_neg h.1]

theorem alook_foldl_applyUpd_mem (ups : List (String × (Nat × Nat × ℚ)))
    (k : String) (v : Nat × Nat × ℚ)
    (hnd : (ups.map Prod.fst).Nodup) (hmem : (k, v) ∈ ups) :
    ∀ s, alook k (ups.foldl Backend.applyUpd s) =
      (alook k s).map (fun row => { row with
        total_classes := v.1
        present_classes := v.2.1
        overall_attendance := v.2.2 }) := by
  induction ups with
  | nil => cases hmem
  | cons u t ih =>
    intro s
    simp only [List.foldl_cons]
    rcases List.mem_cons.mp hmem with he | ht
    · subst he
      have hnotin : k ∉ t.map Prod.fst :=
        (List.nodup_cons.mp (by simpa using hnd)).1
      rw [alook_foldl_applyUpd_not_mem t k hnotin, alook_applyUpd, if_pos rfl]
    · have hne : k ≠ u.1 := by
        intro he2
        exact (List.nodup_cons.mp (by simpa using hnd)).1
          (he2 ▸ List.mem_map_of_mem Prod.fst ht)
      rw [ih (List.nodup_cons.mp (by simpa using hnd)).2 ht,
        alook_applyUpd, if_neg hne]

theorem alook_of_mem_nodup {α : Type} {k : String} {v : α}
    {m : List (String × α)} (hm : (k, v) ∈ m)
    (hnd : (m.map Prod.fst).Nodup) : alook k m = some v := by
  induction m with
  | nil => cases hm
  | cons p t ih =>
    rcases List.mem_cons.mp hm with he | ht
    · rw [← he]
      simp [alook]
    · have hpk : p.1 ≠ k := by
        intro he2
        exact (List.nodup_cons.mp (by simpa using hnd)).1
          (he2 ▸ List.mem_map_of_mem Prod.fst ht)
      simp only [alook, if_neg hpk]
      exact ih ht (List.nodup_cons.mp (by simpa using hnd)).2

theorem keys_filterMap_sublist {α : Type} (l : List (String × String))
    (f : (String × String) → Option (String × α))
    (hf : ∀ st y, f st = some y → y.1 = st.1) :
    ((l.filterMap f).map Prod.fst).Sublist (l.map Prod.fst) := by
  induction l with
  | nil => simp
  | cons st rest ih =>
    simp only [List.filterMap_cons, List.map_cons]
    cases hs : f st with
    | none => exact ih.cons _
    | some y =>
      simp only [List.map_cons]
      rw [hf st y hs]
      exact ih.cons₂ _

/-! Lemmas for the api variant's sequential reconciler -/

theorem api_updStuStep_count (lk : List (String × Bool)) (ct cn : String)
    (st : List (String × Backend.StuRow) × Nat) (student : String × String) :
    (Api.updStuStep lk ct cn st student).2 = st.2 + 1 := by
  unfold Api.updStuStep
  cases alook student.1 st.1 <;> rfl

theorem api_foldl_count (lk : List (String × Bool)) (ct cn : String)
    (l : List (String × String)) :
    ∀ st, (l.foldl (Api.updStuStep lk ct cn) st).2 = st.2 + l.length := by
  induction l with
  | nil => intro st; simp
  | cons a t ih =>
    intro st
    simp only [List.foldl_cons, List.length_cons]
    rw [ih, api_updStuStep_count]
    omega

theorem api_updStuStep_alook_ne (lk : List (String × Bool)) (ct cn : String)
    (st : List (String × Backend.StuRow) × Nat) (student : String × String)
    (k : String) (hne : student.1 ≠ k) :
    alook k (Api.updStuStep lk ct cn st student).1 = alook k st.1 := by
  unfold Api.updStuStep
  cases hs : alook student.1 st.1 with
  | some old =>
    dsimp only
    rw [alook_applyUpd, if_neg (fun h => hne h.symm)]
  | none =>
    dsimp only
    rw [alook_append]
    cases hk : alook k st.1 <;> simp [alook, hk, hne]

theorem api_foldl_alook_not_mem (lk : List (String × Bool)) (ct cn : String)
    (l : List (String × String)) (k : String) (h : k ∉ l.map Prod.fst) :
    ∀ st, alook k (l.foldl (Api.updStuStep lk ct cn) st).1 = alook k st.1 := by
  induction l with
  | nil => intro st; rfl
  | cons a t ih =>
    intro st
    simp only [List.map_cons, List.mem_cons] at h
    push_neg at h
    simp only [List.foldl_cons]
    rw [ih h.2, api_updStuStep_alook_ne lk ct cn st a k (Ne.symm h.1)]

theorem api_updStuStep_alook_self (lk : List (String × Bool)) (ct cn : String)
    (st : List (String × Backend.StuRow) × Nat) (eid nm : String) :
    alook eid (Api.updStuStep lk ct cn st (eid, nm)).1 =
      match alook eid st.1 with
      | some old => some { old with
          total_classes :=
            (Backend.updateVals old ((alook eid lk).getD false)).1
          present_classes :=
            (Backend.updateVals old ((alook eid lk).getD false)).2.1
          overall_attendance :=
            (Backend.updateVals old ((alook eid lk).getD false)).2.2 }
      | none => some (Backend.insertRow nm ct cn ((alook eid lk).getD false)) := by
  unfold Api.updStuStep
  dsimp only
  cases hs : alook eid st.1 with
  | some old =>
    dsimp only
    rw [alook_applyUpd, if_pos rfl, hs]
    rfl
  | none =>
    dsimp only
    rw [alook_append, hs]
    simp [alook]

/-- C3: one reconciliation run updates exactly one StudentStat row per
enrolled student, in both the backend (snapshot-plus-batch) and api
(sequential read-modify-write) reconcilers: with distinct roster and
record identities, the updated count equals the roster size and every
enrolled student's row has total_classes incremented by one (or created
at one), while present_classes gains one exactly when a present
attendance record for that student exists, whether or not the student
appears in the records. -/
theorem reconciler_per_student (onboarding : List (String × String))
    (records : List (String × Bool)) (stu : List (String × Backend.StuRow))
    (ct cn : String) (eid nm : String)
    (honb : (onboarding.map Prod.fst).Nodup)
    (hrec : (records.map Prod.fst).Nodup)
    (hmem : (eid, nm) ∈ onboarding) :
    ((Backend.update_stu_table onboarding records stu ct cn).2.1 =
        onboarding.length ∧
      ∃ row : Backend.StuRow,
        alook eid (Backend.update_stu_table onboarding records stu ct cn).1 =
            some row ∧
          row.total_classes = (match alook eid stu with
            | some old => old.total_classes + 1
            | none => 1) ∧
          row.present_classes = (match alook eid stu with
            | some old => old.present_classes
            | none => 0) +
            (if records.any (fun r => decide (r.1 = eid) && r.2) then 1
             else 0)) ∧
    ((Api.update_stu_table onboarding records stu ct cn).2.1 =
        onboarding.length ∧
      ∃ row : Backend.StuRow,
        alook eid (Api.update_stu_table onboarding records stu ct cn).1 =
            some row ∧
          row.total_classes = (match alook eid stu with
            | some old => old.total_classes + 1
            | none => 1) ∧
          row.present_classes = (match alook eid stu with
            | some old => old.present_classes
            | none => 0) +
            (if records.any (fun r => decide (r.1 = eid) && r.2) then 1
             else 0)) := by
  have hempty : onboarding.isEmpty = false := by
    cases onboarding with
    | nil => cases hmem
    | cons a t => rfl
  have hb : (alook eid (Backend.buildLookup records)).getD false =
      records.any (fun r => decide (r.1 = eid) && r.2) :=
    buildLookup_any records eid hrec
  constructor
  · unfold Backend.update_stu_table
    rw [if_neg (by simp [hempty])]
    dsimp only
    rw [planStep_foldl]
    dsimp only
    simp only [List.nil_append]
    refine ⟨by trivial, ?_⟩
    have hfu : ∀ (st : String × String) (y : String × (Nat × Nat × ℚ)),
        (alook st.1 stu).map (fun old => (st.1, Backend.updateVals old
          ((alook st.1 (Backend.buildLookup records)).getD false))) = some y →
        y.1 = st.1 := by
      intro st y hy
      cases hs : alook st.1 stu with
      | none => rw [hs] at hy; cases hy
      | some old =>
        rw [hs] at hy
        injection hy with hy2
        rw [← hy2]
    have hfi : ∀ (st : String × String) (y : String × Backend.StuRow),
        (match alook st.1 stu with
          | some _ => none
          | none => some (st.1, Backend.insertRow st.2 ct cn
              ((alook st.1 (Backend.buildLookup records)).getD false))) = some y →
        y.1 = st.1 := by
      intro st y hy
      cases hs : alook st.1 stu with
      | some old => rw [hs] at hy; cases hy
      | none =>
        rw [hs] at hy
        injection hy with hy2
        rw [← hy2]
    have hupdnd := List.Nodup.sublist
      (keys_filterMap_sublist onboarding _ hfu) honb
    have hinsnd := List.Nodup.sublist
      (keys_filterMap_sublist onboarding _ hfi) honb
    cases halook : alook eid stu with
    | some old =>
      have hmem_upd : (eid, Backend.updateVals old
          ((alook eid (Backend.buildLookup records)).getD false)) ∈
          onboarding.filterMap (fun st => (alook st.1 stu).map (fun old2 =>
            (st.1, Backend.updateVals old2
              ((alook st.1 (Backend.buildLookup records)).getD false)))) := by
        refine List.mem_filterMap.mpr ⟨(eid, nm), hmem, ?_⟩
        dsimp only
        rw [halook]
        rfl
      rw [alook_foldl_applyUpd_mem _ eid _ hupdnd hmem_upd, alook_append, halook]
      refine ⟨_, rfl, ?_, ?_⟩
      · simp [Backend.updateVals]
      · simp [Backend.updateVals, hb]
    | none =>
      have hmem_ins : (eid, Backend.insertRow nm ct cn
          ((alook eid (Backend.buildLookup records)).getD false)) ∈
          onboarding.filterMap (fun st =>
            (match alook st.1 stu with
              | some _ => none
              | none => some (st.1, Backend.insertRow st.2 ct cn
                  ((alook st.1 (Backend.buildLookup records)).getD false)))) := by
        refine List.mem_filterMap.mpr ⟨(eid, nm), hmem, ?_⟩
        dsimp only
        rw [halook]
      have hnotin_upd : eid ∉ (onboarding.filterMap (fun st =>
          (alook st.1 stu).map (fun old2 => (st.1, Backend.updateVals old2
            ((alook st.1 (Backend.buildLookup records)).getD false))))).map
          Prod.fst := by
        intro hmem2
        obtain ⟨y, hy, hy1⟩ := List.mem_map.mp hmem2
        obtain ⟨st, hst, hfst⟩ := List.mem_filterMap.mp hy
        cases hs : alook st.1 stu with
        | none => rw [hs] at hfst; cases hfst
        | some old2 =>
          rw [hs] at hfst
          injection hfst with hy2
          rw [← hy2] at hy1
          dsimp only at hy1
          rw [hy1] at hs
          rw [halook] at hs
          cases hs
      rw [alook_foldl_applyUpd_not_mem _ eid hnotin_upd, alook_append, halook]
      rw [alook_of_mem_nodup hmem_ins hinsnd]
      refine ⟨_, rfl, ?_, ?_⟩
      · simp [Backend.insertRow]
      · simp [Backend.insertRow, hb]
  · obtain ⟨l1, l2, hsplit⟩ := List.append_of_mem hmem
    subst hsplit
    have honb2 := honb
    rw [List.map_append, List.map_cons] at honb2
    have hnd := List.nodup_append.mp honb2
    have h1 : eid ∉ l1.map Prod.fst :=
      fun hx => (hnd.2.2 hx) (List.mem_cons_self _ _)
    have h2 : eid ∉ l2.map Prod.fst := (List.nodup_cons.mp hnd.2.1).1
    unfold Api.update_stu_table
    rw [if_neg (by simp [hempty])]
    dsimp only
    constructor
    · rw [api_foldl_count]
      simp
    · rw [List.foldl_append, List.foldl_cons,
        api_foldl_alook_not_mem _ _ _ l2 eid h2,
        api_updStuStep_alook_self,
        api_foldl_alook_not_mem _ _ _ l1 eid h1]
      dsimp only
      cases halook : alook eid stu with
      | some old =>
        dsimp only
        refine ⟨_, rfl, ?_, ?_⟩
        · simp [Backend.updateVals]
        · simp [Backend.updateVals, hb]
      | none =>
        dsimp only
        refine ⟨_, rfl, ?_, ?_⟩
        · simp [Backend.insertRow]
        · simp [Backend.insertRow, hb]

/-- Witness for C3: roster of three students, two present records; both
reconcilers report three updates and the first student's fresh row gains
the present increment. -/
theorem reconciler_per_student_witness :
    ((([("25MBY0001", "A"), ("25MBY0002", "B"), ("25MBY0003", "C")] :
          List (String × String)).map Prod.fst).Nodup ∧
        (([("25MBY0001", true), ("25MBY0002", true)] :
          List (String × Bool)).map Prod.fst).Nodup ∧
        ("25MBY0001", "A") ∈ ([("25MBY0001", "A"), ("25MBY0002", "B"),
          ("25MBY0003", "C")] : List (String × String))) ∧
      (((Backend.update_stu_table
            [("25MBY0001", "A"), ("25MBY0002", "B"), ("25MBY0003", "C")]
            [("25MBY0001", true), ("25MBY0002", true)] [] "Basic" "2.0").2.1 =
          ([("25MBY0001", "A"), ("25MBY0002", "B"),
            ("25MBY0003", "C")] : List (String × String)).length ∧
        ∃ row : Backend.StuRow,
          alook "25MBY0001" (Backend.update_stu_table
              [("25MBY0001", "A"), ("25MBY0002", "B"), ("25MBY0003", "C")]
              [("25MBY0001", true), ("25MBY0002", true)] [] "Basic" "2.0").1 =
              some row ∧
            row.total_classes = (match alook "25MBY0001"
                ([] : List (String × Backend.StuRow)) with
              | some old => old.total_classes + 1
              | none => 1) ∧
            row.present_classes = (match alook "25MBY0001"
                ([] : List (String × Backend.StuRow)) with
              | some old => old.present_classes
              | none => 0) +
              (if ([("25MBY0001", true), ("25MBY0002", true)] :
                  List (String × Bool)).any
                  (fun r => decide (r.1 = "25MBY0001") && r.2) then 1
               else 0)) ∧
      ((Api.update_stu_table
            [("25MBY0001", "A"), ("25MBY0002", "B"), ("25MBY0003", "C")]
            [("25MBY0001", true), ("25MBY0002", true)] [] "Basic" "2.0").2.1 =
          ([("25MBY0001", "A"), ("25MBY0002", "B"),
            ("25MBY0003", "C")] : List (String × String)).length ∧
        ∃ row : Backend.StuRow,
          alook "25MBY0001" (Api.update_stu_table
              [("25MBY0001", "A"), ("25MBY0002", "B"), ("25MBY0003", "C")]
              [("25MBY0001", true), ("25MBY0002", true)] [] "Basic" "2.0").1 =
              some row ∧
            row.total_classes = (match alook "25MBY0001"
                ([] : List (String × Backend.StuRow)) with
              | some old => old.total_classes + 1
              | none => 1) ∧
            row.present_classes = (match alook "25MBY0001"
                ([] : List (String × Backend.StuRow)) with
              | some old => old.present_classes
              | none => 0) +
              (if ([("25MBY0001", true), ("25MBY0002", true)] :
                  List (String × Bool)).any
                  (fun r => decide (r.1 = "25MBY0001") && r.2) then 1
               else 0))) :=
  ⟨⟨by decide, by decide, by decide⟩,
    reconciler_per_student
      [("25MBY0001", "A"), ("25MBY0002", "B"), ("25MBY0003", "C")]
      [("25MBY0001", true), ("25MBY0002", true)] [] "Basic" "2.0"
      "25MBY0001" "A" (by decide) (by decide) (by decide)⟩

/-! Invariant lemmas for the stu table -/

theorem applyUpd_preserves (s : List (String × Backend.StuRow))
    (u : String × (Nat × Nat × ℚ))
    (hs : ∀ p ∈ s, Backend.StuInv p.2)
    (hu : u.2.2.2 = round2 ((u.2.2.1 : ℚ) / (u.2.1 : ℚ) * 100) ∧
      u.2.2.1 ≤ u.2.1) :
    ∀ p ∈ Backend.applyUpd s u, Backend.StuInv p.2 := by
  intro p hp
  unfold Backend.applyUpd at hp
  obtain ⟨q, hq, hqe⟩ := List.mem_map.mp hp
  by_cases hqk : q.1 = u.1
  · rw [← hqe, if_pos hqk]
    exact hu
  · rw [← hqe, if_neg hqk]
    exact hs q hq

theorem foldl_applyUpd_preserves (ups : List (String × (Nat × Nat × ℚ))) :
    ∀ s, (∀ p ∈ s, Backend.StuInv p.2) →
      (∀ u ∈ ups, u.2.2.2 = round2 ((u.2.2.1 : ℚ) / (u.2.1 : ℚ) * 100) ∧
        u.2.2.1 ≤ u.2.1) →
      ∀ p ∈ ups.foldl Backend.applyUpd s, Backend.StuInv p.2 := by
  induction ups with
  | nil => intro s hs _ p hp; exact hs p hp
  | cons u t ih =>
    intro s hs hu p hp
    simp only [List.foldl_cons] at hp
    exact ih (Backend.applyUpd s u)
      (applyUpd_preserves s u hs (hu u (List.mem_cons_self _ _)))
      (fun w hw => hu w (List.mem_cons_of_mem _ hw)) p hp

theorem updateVals_inv (old : Backend.StuRow) (b : Bool)
    (h : Backend.StuInv old) :
    (Backend.updateVals old b).2.2 =
        round2 (((Backend.updateVals old b).2.1 : ℚ) /
          ((Backend.updateVals old b).1 : ℚ) * 100) ∧
      (Backend.updateVals old b).2.1 ≤ (Backend.updateVals old b).1 := by
  unfold Backend.updateVals
  dsimp only
  constructor
  · rw [if_pos (Nat.succ_pos _)]
  · have h2 := h.2
    split_ifs <;> omega

theorem insertRow_inv (name ct cn : String) (b : Bool) :
    Backend.StuInv (Backend.insertRow name ct cn b) := by
  unfold Backend.StuInv Backend.insertRow
  dsimp only
  constructor
  · simp
  · split_ifs <;> omega

theorem api_updStuStep_preserves (lk : List (String × Bool)) (ct cn : String)
    (st : List (String × Backend.StuRow) × Nat) (student : String × String)
    (h : ∀ p ∈ st.1, Backend.StuInv p.2) :
    ∀ p ∈ (Api.updStuStep lk ct cn st student).1, Backend.StuInv p.2 := by
  unfold Api.updStuStep
  cases hs : alook student.1 st.1 with
  | some old =>
    dsimp only
    exact applyUpd_preserves st.1 _ h
      (updateVals_inv old _ (h _ (alook_mem hs)))
  | none =>
    dsimp only
    intro p hp
    rcases List.mem_append.mp hp with hin | hin
    · exact h p hin
    · simp only [List.mem_singleton] at hin
      subst hin
      exact insertRow_inv _ _ _ _

theorem api_foldl_preserves (lk : List (String × Bool)) (ct cn : String)
    (l : List (String × String)) :
    ∀ st : List (String × Backend.StuRow) × Nat,
      (∀ p ∈ st.1, Backend.StuInv p.2) →
      ∀ p ∈ (l.foldl (Api.updStuStep lk ct cn) st).1, Backend.StuInv p.2 := by
  induction l with
  | nil => intro st h p hp; exact h p hp
  | cons a t ih =>
    intro st h p hp
    simp only [List.foldl_cons] at hp
    exact ih _ (api_updStuStep_preserves lk ct cn st a h) p hp

/-- C4: every row of the stu table after a reconciliation run, by either
the backend or the api reconciler, satisfies the invariant
overall_attendance = round(present/total*100, 2) and present_classes at
most total_classes, provided every prior row did. -/
theorem stu_invariant_preserved (onboarding : List (String × String))
    (records : List (String × Bool)) (stu : List (String × Backend.StuRow))
    (ct cn : String) (h : ∀ p ∈ stu, Backend.StuInv p.2) :
    (∀ p ∈ (Backend.update_stu_table onboarding records stu ct cn).1,
      Backend.StuInv p.2) ∧
    (∀ p ∈ (Api.update_stu_table onboarding records stu ct cn).1,
      Backend.StuInv p.2) := by
  constructor
  · by_cases hempty : onboarding.isEmpty
    · unfold Backend.update_stu_table
      rw [if_pos hempty]
      exact h
    · unfold Backend.update_stu_table
      rw [if_neg hempty]
      dsimp only
      rw [planStep_foldl]
      dsimp only
      simp only [List.nil_append]
      apply foldl_applyUpd_preserves
      · intro p hp
        rcases List.mem_append.mp hp with hin | hin
        · exact h p hin
        · obtain ⟨st, hst, hfst⟩ := List.mem_filterMap.mp hin
          cases hs : alook st.1 stu with
          | some o => rw [hs] at hfst; cases hfst
          | none =>
            rw [hs] at hfst
            injection hfst with hy
            rw [← hy]
            exact insertRow_inv _ _ _ _
      · intro u hu
        obtain ⟨st, hst, hfst⟩ := List.mem_filterMap.mp hu
        cases hs : alook st.1 stu with
        | none => rw [hs] at hfst; cases hfst
        | some old =>
          rw [hs] at hfst
          injection hfst with hy
          rw [← hy]
          exact updateVals_inv old _ (h (st.1, old) (alook_mem hs))
  · by_cases hempty : onboarding.isEmpty
    · unfold Api.update_stu_table
      rw [if_pos hempty]
      exact h
    · unfold Api.update_stu_table
      rw [if_neg hempty]
      dsimp only
      exact api_foldl_preserves _ _ _ onboarding (stu, 0) h

/-- Witness for C4 with an empty prior stu table and a one-student
roster, for both reconcilers. -/
theorem stu_invariant_preserved_witness :
    (∀ p ∈ ([] : List (String × Backend.StuRow)), Backend.StuInv p.2) ∧
      ((∀ p ∈ (Backend.update_stu_table [("25MBY0001", "A")]
          [("25MBY0001", true)] [] "Basic" "2.0").1, Backend.StuInv p.2) ∧
       (∀ p ∈ (Api.update_stu_table [("25MBY0001", "A")]
          [("25MBY0001", true)] [] "Basic" "2.0").1, Backend.StuInv p.2)) :=
  ⟨fun p hp => absurd hp (List.not_mem_nil p),
    stu_invariant_preserved [("25MBY0001", "A")] [("25MBY0001", true)] []
      "Basic" "2.0" (fun p hp => absurd hp (List.not_mem_nil p))⟩
